import Mathlib

/-!
Shallow embedding of the macpine launch-cloud command (`cmd/launch-cloud.go`)
and tag command (`cmd/tag.go`), together with proofs about argument
validation, identity handling, the launch-failure recovery protocol and
sorted tag-set maintenance.

External collaborators (the Go standard library, the `utils`, `host` and
`qemu` packages, and the filesystem/clock) are modelled as explicit
parameters or small faithful functions; everything taken from the two
source files keeps the source's structure and names.
-/

namespace Macpine

/-! ## Go standard-library and utils helpers -/

/-- Modelled from the spec: `utils.StringSliceContains` (package `utils`, not part
of the two source files) — membership of a string in a string slice, used by the
identity-collision check (“fail immediately if the user-supplied alias already
exists”) and by the disk-suffix check. -/
def stringSliceContains (slice : List String) (s : String) : Bool :=
  slice.any (fun x => x == s)

/-- Accumulator loop of decimal digit parsing: fails on any non-digit. -/
def parseDigitsAcc : List Char → Nat → Option Nat
  | [], acc => some acc
  | c :: rest, acc =>
    if '0' ≤ c ∧ c ≤ '9' then parseDigitsAcc rest (acc * 10 + (c.toNat - '0'.toNat))
    else none

/-- Go `strconv.Atoi` on a 64-bit platform: an optional sign followed by one or
more decimal digits, rejecting anything else and rejecting values outside
`[-2^63, 2^63 - 1]`. `none` models a non-nil `err`. -/
def goAtoi (s : String) : Option Int :=
  match s.toList with
  | [] => none
  | '+' :: rest =>
    if rest = [] then none
    else (parseDigitsAcc rest 0).bind
      (fun n => if n ≤ 2 ^ 63 - 1 then some (n : Int) else none)
  | '-' :: rest =>
    if rest = [] then none
    else (parseDigitsAcc rest 0).bind
      (fun n => if n ≤ 2 ^ 63 then some (-(n : Int)) else none)
  | l =>
    (parseDigitsAcc l 0).bind
      (fun n => if n ≤ 2 ^ 63 - 1 then some (n : Int) else none)

/-- `filepath.Join` of two components, for already-clean inputs: empty parts are
dropped, otherwise the parts are joined with a single separator. -/
def joinPath (a b : String) : String :=
  if a = "" then b else if b = "" then a else a ++ "/" ++ b

/-! ## ArgumentValidator: CorrectArgumentsCloud (launch-cloud.go lines 55-116) -/

/-- The character classification of the disk-size check (lines 78-86): uppercase
letters are collected, in order, into `l`. -/
def diskLetters (s : String) : List Char :=
  s.toList.filter (fun r => 'A' ≤ r ∧ r ≤ 'Z')

/-- The character classification of the disk-size check (lines 78-86): decimal
digits are collected, in order, into `n`; all other characters are dropped. -/
def diskDigits (s : String) : List Char :=
  s.toList.filter (fun r => '0' ≤ r ∧ r ≤ '9')

/-- `strconv.Atoi` followed by a lower-bound test, sharing one error message —
the shape of the cpu, memory and ssh-port checks in `CorrectArgumentsCloud`. -/
def atoiCheck (s : String) (lowBound : Int) (msg : String) : Except String Unit :=
  match goAtoi s with
  | none => Except.error msg
  | some i => if i < lowBound then Except.error msg else Except.ok ()

/-- The disk-size validation of `CorrectArgumentsCloud` (lines 78-95). -/
def diskSizeCheck (machineDisk : String) : Except String Unit :=
  let l := diskLetters machineDisk
  let n := diskDigits machineDisk
  match goAtoi (List.asString n) with
  | none => Except.error "disk size (-d) must be a positive integer optionally followed by K, M, or G"
  | some i =>
    if i < 0 then
      Except.error "disk size (-d) must be a positive integer optionally followed by K, M, or G"
    else if stringSliceContains ["", "K", "M", "G"] (List.asString l) then Except.ok ()
    else Except.error "disk size suffix must be K, M, or G"

/-- `CorrectArgumentsCloud` (lines 55-116). The seven string parameters are the
ones of the Go function; `machineMount` is the package-level variable of the
sibling `launch` command that line 107 reads (the function receives no mount
parameter of its own). `stat` models `os.Stat` (`none`: the path does not
exist; `some b`: it exists and `b` tells whether it is a directory), and
`parsePortFn` models the collaborator `utils.ParsePort`, whose error is
surfaced unchanged. -/
def CorrectArgumentsCloud (imageVersion machineArch machineCPU machineMemory machineDisk
    sshPort machinePortArg : String) (machineMount : String)
    (stat : String → Option Bool) (parsePortFn : String → Except String Unit) :
    Except String Unit := do
  let _ := imageVersion  -- the image check (lines 58-60) is commented out in the source
  if machineArch ≠ "" ∧ machineArch ≠ "aarch64" ∧ machineArch ≠ "x86_64" then
    throw "unsupported guest architecture. use x86_64 or aarch64"
  atoiCheck machineCPU 0 "number of cpus (-c) must be a positive integer"
  atoiCheck machineMemory 256 "memory (-m) must be a positive integer greater than 256"
  diskSizeCheck machineDisk
  atoiCheck sshPort 0 "ssh port (-s) must be a positive integer"
  parsePortFn machinePortArg
  if machineMount ≠ "" then
    match stat machineMount with
    | none => throw ("mount target " ++ machineMount ++ " does not exist")
    | some isDirFlag =>
      if !isDirFlag then throw ("mount target " ++ machineMount ++ " is not a directory")
      else pure ()

/-! ## ConfigBuilder and IdentityGenerator (launch-cloud.go lines 118-188) -/

/-- Modelled from the spec: the `qemu.MachineConfig` record (the spec's
`InstanceConfig`; package `qemu` is not part of the two source files), with
exactly the fields the composite literal at lines 168-188 populates.
`RootPassword` is the string the source's pointer points to. -/
structure MachineConfig where
  Alias : String
  Image : String
  Arch : String
  CPU : String
  Memory : String
  Disk : String
  Mount : String
  MachineIP : String
  Port : String
  SSHPort : String
  MACAddress : String
  VMNet : Bool
  SSHUser : String
  SSHPassword : String
  RootUsername : String
  RootPassword : String
  CloudInit : String
  Tags : List String
  Location : String
  deriving DecidableEq

/-- The flag values of one `launch-cloud` invocation: the package variables that
`includeLaunchCloudFlags` binds (lines 30-33, 39-53). -/
structure CloudInvocation where
  imageVersionCloud : String
  machineArchCloud : String
  machineCPUCloud : String
  machineMemoryCloud : String
  machineDiskCloud : String
  machinePortCloud : String
  sshPortCloud : String
  machineNameCloud : String
  machineMountCloud : String
  cloudInitCloud : String
  vmnetCloud : Bool

/-- The package-level variables of the sibling `launch` command (declared outside
these two files, in the same `cmd` package) that `launch-cloud.go` reads at
lines 107, 130-141 and 143-152. In a `launch-cloud` invocation they hold their
own flag defaults (the empty string). -/
structure SiblingVars where
  machineName : String
  machineArch : String
  machineMount : String

/-- The host environment a launch invocation sees: `runtime.GOARCH`,
`os.UserHomeDir`, `host.ListVMNames()`, `os.Stat`, the successive results of
`utils.GenerateRandomAlias()`, the result of `utils.GenerateMACAddress()`, and
`utils.ParsePort`. -/
structure HostEnv where
  goarch : String
  userHomeDir : String
  vmList : List String
  stat : String → Option Bool
  genAlias : Nat → String
  macAddressResult : Except String String
  parsePortFn : String → Except String Unit

/-- The retry loop of lines 146-149: draw candidates `gen k, gen (k+1), …` until
one is not contained in `vmList`. The `fuel` bound is a model artifact making
the unbounded Go loop a total function; `none` means the fuel ran out. -/
def freshAlias (vmList : List String) (gen : Nat → String) : Nat → Nat → Option String
  | _, 0 => none
  | k, fuel + 1 =>
    let c := gen k
    if stringSliceContains vmList c then freshAlias vmList gen (k + 1) fuel else some c

/-- Lines 161-164: the boot firmware mode, selected from `machineArchCloud`. -/
def machineTypeOf (machineArchCloud : String) : String :=
  if machineArchCloud = "aarch64" then "uefi" else "bios"

/-- The body of `launchCloud` (lines 118-188) up to the `host.Launch` call:
validation, the architecture default, alias generation / collision check, MAC
generation, and the construction of the `MachineConfig`. `Except.error` models
the `log.Fatal` exits. Note which variables the source reads: the architecture
default (lines 130-141) and the name collision check (lines 143-152) operate on
the sibling `launch` command's package variables `machineArch` and
`machineName`, while the record at lines 168-188 is built from the
`…Cloud` variables. -/
def launchCloudPrep (inv : CloudInvocation) (sib : SiblingVars) (henv : HostEnv)
    (fuel : Nat) : Except String MachineConfig := do
  CorrectArgumentsCloud inv.imageVersionCloud inv.machineArchCloud inv.machineCPUCloud
    inv.machineMemoryCloud inv.machineDiskCloud inv.sshPortCloud inv.machinePortCloud
    sib.machineMount henv.stat henv.parsePortFn
  let _machineArchUpdated ←
    if sib.machineArch = "" then
      match henv.goarch with
      | "arm64" => pure "aarch64"
      | "amd64" => pure "x86_64"
      | a => throw ("unsupported host architecture: " ++ a)
    else pure sib.machineArch
  let _machineNameUpdated ←
    if sib.machineName = "" then
      match freshAlias henv.vmList henv.genAlias 0 fuel with
      | some a => pure a
      | none => throw "model: random alias generation fuel exhausted"
    else if stringSliceContains henv.vmList sib.machineName then
      throw ("instance with name \"" ++ sib.machineName ++ "\" already exists")
    else pure sib.machineName
  let macAddress ← henv.macAddressResult
  let machineIP := "localhost"
  let machineType := machineTypeOf inv.machineArchCloud
  let rootPassword := "root"
  let cfg : MachineConfig := {
    Alias := inv.machineNameCloud
    Image := "nocloud_alpine-" ++ inv.imageVersionCloud ++ "-" ++ inv.machineArchCloud ++
      "-" ++ machineType ++ "-cloudinit-r0.qcow2"
    Arch := inv.machineArchCloud
    CPU := inv.machineCPUCloud
    Memory := inv.machineMemoryCloud
    Disk := inv.machineDiskCloud
    Mount := inv.machineMountCloud
    MachineIP := machineIP
    Port := inv.machinePortCloud
    SSHPort := inv.sshPortCloud
    MACAddress := macAddress
    VMNet := inv.vmnetCloud
    SSHUser := "alpine"
    SSHPassword := "raw::root"
    RootUsername := "alpine"
    RootPassword := rootPassword
    CloudInit := inv.cloudInitCloud
    Tags := []
    Location := "" }
  pure { cfg with Location := joinPath (joinPath henv.userHomeDir ".macpine") cfg.Alias }

/-- Baseline `launch-cloud` flag values: every flag at its declared default
(lines 40-50), with a cloud-init file supplied as the command requires. -/
def invDefault : CloudInvocation := {
  imageVersionCloud := "alpine_3.20.3"
  machineArchCloud := ""
  machineCPUCloud := "2"
  machineMemoryCloud := "2048"
  machineDiskCloud := "5G"
  machinePortCloud := ""
  sshPortCloud := "22"
  machineNameCloud := ""
  machineMountCloud := ""
  cloudInitCloud := "cloud-init.yaml"
  vmnetCloud := false }

/-- The sibling `launch` command's variables as a `launch-cloud` invocation
finds them: at their flag defaults, the empty string. -/
def sibDefault : SiblingVars := { machineName := "", machineArch := "", machineMount := "" }

/-- A concrete host environment: arm64 host, no existing instances, an empty
filesystem, a random-alias stream that always yields `"r0"`. -/
def henvDefault : HostEnv := {
  goarch := "arm64"
  userHomeDir := "/home/u"
  vmList := []
  stat := fun _ => none
  genAlias := fun _ => "r0"
  macAddressResult := Except.ok "52:54:00:a1:b2:c3"
  parsePortFn := fun _ => Except.ok () }

/-! ## TagSetEditor (tag.go lines 58-65 and 79-88) -/

/-- `find` (tag.go lines 79-88): ascending scan; at the first element equal to
`t` return its index and `true`, at the first element greater than `t` return
its index and `false`, otherwise return the length and `false`. Go's `e > t`
compares the strings byte-wise, which on UTF-8 data is exactly the
lexicographic order of the character lists, `t.data < e.data` (and, by
`String.lt_iff_toList_lt`, exactly `t < e` on `String`). -/
def find : List String → String → Nat × Bool
  | [], _ => (0, false)
  | e :: rest, t =>
    if e = t then (0, true)
    else if t.data < e.data then (0, false)
    else ((find rest t).1 + 1, (find rest t).2)

/-- One iteration of `macpineTag`'s loop (tag.go lines 58-65): locate the tag,
then splice. `Tags[:i]` and `Tags[i+1:]` / `Tags[i:]` are `take` and `drop`;
the Go `append` chains build exactly these concatenations. -/
def tagStep (removeFlag : Bool) (tags : List String) (tag : String) : List String :=
  let fr := find tags tag
  if removeFlag && fr.2 then tags.take fr.1 ++ tags.drop (fr.1 + 1)
  else if !removeFlag && !fr.2 then tags.take fr.1 ++ tag :: tags.drop fr.1
  else tags

/-- The whole `for _, tag := range tags` loop of `macpineTag` (lines 58-65),
applied to the tag sequence loaded from the instance's configuration. -/
def macpineTagLoop (removeFlag : Bool) (tags requested : List String) : List String :=
  requested.foldl (tagStep removeFlag) tags

/-- Proof-side restatement of the add splice as a structural recursion; shown
equal to `tagStep false` in `tagStep_false_eq_insert`. -/
def insertIfAbsent (t : String) : List String → List String
  | [] => [t]
  | e :: rest =>
    if e = t then e :: rest
    else if t.data < e.data then t :: e :: rest
    else e :: insertIfAbsent t rest

/-! ## Lemmas about find -/

/-- `String` comparison through the underlying character lists. -/
theorem data_lt_iff (a b : String) : a.data < b.data ↔ a < b :=
  (@String.lt_iff_toList_lt a b).symm

/-- In the fall-through branch of `find`, the scanned element is strictly below
the target. -/
theorem lt_of_find_continue {e t : String} (h1 : ¬ e = t) (h2 : ¬ t.data < e.data) :
    e < t := by
  rw [data_lt_iff] at h2
  exact lt_of_le_of_ne (not_lt.mp h2) h1

theorem find_fst_le (s : List String) (t : String) : (find s t).1 ≤ s.length := by
  induction s with
  | nil => simp [find]
  | cons e rest ih =>
    by_cases h1 : e = t
    · simp [find, h1]
    · by_cases h2 : t.data < e.data
      · simp [find, h1, h2]
      · simp only [find, if_neg h1, if_neg h2, List.length_cons]
        omega

theorem find_getD_lt (s : List String) (t : String) :
    ∀ j, j < (find s t).1 → s.getD j "" < t := by
  induction s with
  | nil => intro j hj; simp [find] at hj
  | cons e rest ih =>
    intro j hj
    by_cases h1 : e = t
    · simp [find, h1] at hj
    · by_cases h2 : t.data < e.data
      · simp [find, h1, h2] at hj
      · simp only [find, if_neg h1, if_neg h2] at hj
        match j with
        | 0 => simpa using lt_of_find_continue h1 h2
        | j + 1 =>
          simp only [List.getD_cons_succ]
          exact ih j (by omega)

theorem find_le_getD (s : List String) (t : String) (h : (find s t).1 < s.length) :
    t ≤ s.getD (find s t).1 "" := by
  induction s with
  | nil => simp at h
  | cons e rest ih =>
    by_cases h1 : e = t
    · simp [find, h1]
    · by_cases h2 : t.data < e.data
      · simp only [find, if_neg h1, if_pos h2, List.getD_cons_zero]
        rw [data_lt_iff] at h2
        exact le_of_lt h2
      · simp only [find, if_neg h1, if_neg h2, List.getD_cons_succ]
        simp only [find, if_neg h1, if_neg h2, List.length_cons] at h
        exact ih (by omega)

theorem find_snd_iff (s : List String) (t : String) :
    (find s t).2 = true ↔ ((find s t).1 < s.length ∧ s.getD (find s t).1 "" = t) := by
  induction s with
  | nil => simp [find]
  | cons e rest ih =>
    by_cases h1 : e = t
    · simp [find, h1]
    · by_cases h2 : t.data < e.data
      · simp only [find, if_neg h1, if_pos h2, List.getD_cons_zero, List.length_cons]
        constructor
        · intro h
          exact Bool.noConfusion h
        · rintro ⟨-, hb⟩
          exact absurd hb h1
      · simp only [find, if_neg h1, if_neg h2, List.getD_cons_succ, List.length_cons]
        rw [ih]
        constructor
        · rintro ⟨ha, hb⟩
          exact ⟨by omega, hb⟩
        · rintro ⟨ha, hb⟩
          exact ⟨by omega, hb⟩

/-! ## Lemmas about tagStep -/

/-- Skipping one scanned element commutes with `tagStep`. -/
theorem tagStep_cons (rm : Bool) (e : String) (rest : List String) (t : String)
    (h1 : ¬ e = t) (h2 : ¬ t.data < e.data) :
    tagStep rm (e :: rest) t = e :: tagStep rm rest t := by
  have hf : find (e :: rest) t = ((find rest t).1 + 1, (find rest t).2) := by
    simp [find, h1, h2]
  cases rm <;> cases hfb : (find rest t).2 <;>
    simp [tagStep, hf, hfb, List.take_succ_cons, List.drop_succ_cons]

/-- The add-mode splice of `tagStep` is the structural ordered insertion. -/
theorem tagStep_false_eq_insert (s : List String) (t : String) :
    tagStep false s t = insertIfAbsent t s := by
  induction s with
  | nil => simp [tagStep, find, insertIfAbsent]
  | cons e rest ih =>
    by_cases h1 : e = t
    · simp [tagStep, find, insertIfAbsent, h1]
    · by_cases h2 : t.data < e.data
      · simp [tagStep, find, insertIfAbsent, h1, h2]
      · rw [tagStep_cons false e rest t h1 h2, ih]
        simp [insertIfAbsent, h1, h2]

theorem mem_insertIfAbsent (t a : String) (s : List String) :
    a ∈ insertIfAbsent t s ↔ a = t ∨ a ∈ s := by
  induction s with
  | nil => simp [insertIfAbsent]
  | cons e rest ih =>
    by_cases h1 : e = t
    · subst h1
      simp only [insertIfAbsent, if_pos rfl]
      constructor
      · exact fun h => Or.inr h
      · rintro (rfl | h)
        · exact List.mem_cons_self _ _
        · exact h
    · by_cases h2 : t.data < e.data
      · simp [insertIfAbsent, h1, h2]
      · simp only [insertIfAbsent, if_neg h1, if_neg h2, List.mem_cons, ih]
        tauto

theorem sorted_insertIfAbsent (t : String) (s : List String)
    (hs : List.Sorted (· < ·) s) : List.Sorted (· < ·) (insertIfAbsent t s) := by
  induction s with
  | nil => simp [insertIfAbsent]
  | cons e rest ih =>
    rw [List.sorted_cons] at hs
    by_cases h1 : e = t
    · simpa [insertIfAbsent, h1, List.sorted_cons] using hs
    · by_cases h2 : t.data < e.data
      · rw [data_lt_iff] at h2
        simp only [insertIfAbsent, if_neg h1, if_pos ((data_lt_iff t e).mpr h2)]
        rw [List.sorted_cons]
        refine ⟨?_, List.sorted_cons.mpr hs⟩
        intro b hb
        rcases List.mem_cons.mp hb with rfl | hb
        · exact h2
        · exact lt_trans h2 (hs.1 b hb)
      · simp only [insertIfAbsent, if_neg h1, if_neg h2]
        rw [List.sorted_cons]
        refine ⟨?_, ih hs.2⟩
        intro b hb
        rcases (mem_insertIfAbsent t b rest).mp hb with rfl | hb
        · exact lt_of_find_continue h1 h2
        · exact hs.1 b hb

theorem insertIfAbsent_of_mem (t : String) (s : List String)
    (hs : List.Sorted (· < ·) s) (hm : t ∈ s) : insertIfAbsent t s = s := by
  induction s with
  | nil => simp at hm
  | cons e rest ih =>
    rw [List.sorted_cons] at hs
    by_cases h1 : e = t
    · simp [insertIfAbsent, h1]
    · rcases List.mem_cons.mp hm with rfl | hm
      · exact absurd rfl h1
      · have het : e < t := hs.1 t hm
        have h2 : ¬ t.data < e.data := by
          rw [data_lt_iff]
          exact not_lt.mpr (le_of_lt het)
        simp only [insertIfAbsent, if_neg h1, if_neg h2]
        rw [ih hs.2 hm]

/-- The remove-mode splice of `tagStep`, on a strictly sorted sequence, is
`List.erase`. -/
theorem tagStep_true_eq_erase (s : List String) (t : String)
    (hs : List.Sorted (· < ·) s) : tagStep true s t = s.erase t := by
  induction s with
  | nil => simp [tagStep, find]
  | cons e rest ih =>
    rw [List.sorted_cons] at hs
    by_cases h1 : e = t
    · subst h1
      simp [tagStep, find, List.erase_cons_head]
    · by_cases h2 : t.data < e.data
      · rw [data_lt_iff] at h2
        have hnm : t ∉ e :: rest := by
          intro hm
          rcases List.mem_cons.mp hm with rfl | hm
          · exact h1 rfl
          · exact absurd (lt_trans h2 (hs.1 t hm)) (lt_irrefl t)
        rw [List.erase_of_not_mem hnm]
        simp [tagStep, find, h1, (data_lt_iff t e).mpr h2]
      · rw [tagStep_cons true e rest t h1 h2, ih hs.2, List.erase_cons_tail]
        simp [h1]

theorem sorted_macpineTagLoop (start requested : List String)
    (hs : List.Sorted (· < ·) start) :
    List.Sorted (· < ·) (macpineTagLoop false start requested) := by
  induction requested generalizing start with
  | nil => exact hs
  | cons r rs ih =>
    simp only [macpineTagLoop, List.foldl_cons]
    exact ih (tagStep false start r) (by rw [tagStep_false_eq_insert]; exact sorted_insertIfAbsent r start hs)


/-! ## LaunchCoordinator failure recovery (launch-cloud.go lines 190-207)

`time.Now().Format("2006-01-02_15-04-05")` reads the wall clock and renders the
civil (year-month-day hour-minute-second) fields of the host's **local** time
zone. We model the clock as `nowUnix` (seconds since the Unix epoch) plus the
zone's `tzOffsetSeconds`; Go's formatter breaks `nowUnix + tzOffsetSeconds`
into civil fields by the proleptic Gregorian calendar. -/

/-- Civil date from a day count since 1970-01-01 (proleptic Gregorian),
the standard era-based algorithm used by Go's `time` package:
returns `(year, month, day)`. -/
def civilFromDays (z0 : Int) : Int × Int × Int :=
  let z := z0 + 719468
  let era : Int := z.fdiv 146097
  let doe : Int := z - era * 146097
  let yoe : Int := (doe - doe.fdiv 1460 + doe.fdiv 36524 - doe.fdiv 146096).fdiv 365
  let y : Int := yoe + era * 400
  let doy : Int := doe - (365 * yoe + yoe.fdiv 4 - yoe.fdiv 100)
  let mp : Int := (5 * doy + 2).fdiv 153
  let d : Int := doy - (153 * mp + 2).fdiv 5 + 1
  let m : Int := if mp < 10 then mp + 3 else mp - 9
  (if m ≤ 2 then y + 1 else y, m, d)

/-- One civil timestamp: the fields Go's layout tokens 2006, 01, 02, 15, 04, 05
render. -/
structure GoDateTime where
  year : Int
  month : Nat
  day : Nat
  hour : Nat
  minute : Nat
  second : Nat
  deriving DecidableEq

/-- Break a second count since the Unix epoch into civil fields. -/
def goDateTimeOfUnix (t : Int) : GoDateTime :=
  let days := t.fdiv 86400
  let secs := t - days * 86400
  let ymd := civilFromDays days
  { year := ymd.1
    month := ymd.2.1.toNat
    day := ymd.2.2.toNat
    hour := (secs.fdiv 3600).toNat
    minute := ((secs.emod 3600).fdiv 60).toNat
    second := (secs.emod 60).toNat }

/-- Zero-pad to two digits (Go's 01/02/15/04/05 layout tokens). -/
def pad2 (n : Nat) : String :=
  if n < 10 then "0" ++ toString n else toString n

/-- Zero-pad a year to four digits (Go's 2006 layout token). -/
def pad4 (y : Int) : String :=
  (if y < 10 then "000" else if y < 100 then "00" else if y < 1000 then "0" else "") ++
    toString y

/-- Go's `Time.Format`, specialised to the reference-layout tokens occurring in
`"2006-01-02_15-04-05"`: scan the layout, replace each token by the
corresponding zero-padded field, copy every other character. -/
def runLayout (d : GoDateTime) : List Char → String
  | '2' :: '0' :: '0' :: '6' :: rest => pad4 d.year ++ runLayout d rest
  | '0' :: '1' :: rest => pad2 d.month ++ runLayout d rest
  | '0' :: '2' :: rest => pad2 d.day ++ runLayout d rest
  | '1' :: '5' :: rest => pad2 d.hour ++ runLayout d rest
  | '0' :: '4' :: rest => pad2 d.minute ++ runLayout d rest
  | '0' :: '5' :: rest => pad2 d.second ++ runLayout d rest
  | c :: rest => String.singleton c ++ runLayout d rest
  | [] => ""

/-- `t.Format("2006-01-02_15-04-05")` for a civil time `d`. -/
def goTimeFormat (d : GoDateTime) : String :=
  runLayout d "2006-01-02_15-04-05".toList

/-- `strings.ReplaceAll(s, " ", "_")` — a single-character pattern, hence a
character map. -/
def underscoreSpaces (s : String) : String :=
  List.asString (s.toList.map (fun c => if c = ' ' then '_' else c))

/-- The observable side effects the recovery sequence can issue. `removeAll`
(`os.RemoveAll`) and `signalKill` (`Process.Signal(SIGKILL)`) are the two
operations the commented-out lines 202-205 would have used; they are part of
the effect language so that their absence from the emitted trace is a theorem
rather than a typing accident. -/
inductive Effect where
  | mkdirAll (path : String)
  | rename (src dst : String)
  | println (msg : String)
  | removeAll (path : String)
  | signalKill (pid : Int)
  deriving DecidableEq

/-- `filepath.Join(userHomeDir, ".macpine", "cache", ".error-logs")`. -/
def errorLogsDir (home : String) : String :=
  joinPath (joinPath (joinPath home ".macpine") "cache") ".error-logs"

/-- The recovery sequence of `launchCloud` (lines 190-207), run when
`host.Launch` returns an error `err`: the ordered effect trace (mkdir of the
error-log directory, the log rename, the four prints) together with the
message of the final `log.Fatal(err)`. `pid` is the result of the
`GetInstancePID` collaborator lookup (its error is discarded at line 199). -/
def recoveryRun (cfg : MachineConfig) (userHomeDir : String)
    (nowUnix tzOffsetSeconds : Int) (pid : Int) (err : String) :
    List Effect × String :=
  let name := underscoreSpaces cfg.Alias ++ "_" ++
    goTimeFormat (goDateTimeOfUnix (nowUnix + tzOffsetSeconds)) ++ ".log"
  let dst := joinPath (errorLogsDir userHomeDir) name
  ([Effect.mkdirAll (errorLogsDir userHomeDir),
    Effect.rename (joinPath cfg.Location "alpine.log") dst,
    Effect.println ("logs are in: " ++ dst),
    Effect.println "run this to clean up:",
    Effect.println ("rm -rf " ++ joinPath (joinPath userHomeDir ".macpine") cfg.Alias),
    Effect.println ("kill " ++ toString pid)], err)

/-- `listStartsWith pat l`: `pat` is an initial segment of `l`. -/
def listStartsWith : List Char → List Char → Bool
  | [], _ => true
  | _ :: _, [] => false
  | a :: as, b :: bs => a = b && listStartsWith as bs

/-- An abstract host state: paths of existing regular files, paths of existing
directories, identifiers of live processes. -/
structure World where
  files : List String
  dirs : List String
  alive : List Int

/-- Semantics of one effect on the abstract host state. A rename moves (and
possibly overwrites) a file; `removeAll` deletes a subtree; `signalKill`
removes a process from the live set; prints change nothing. -/
def applyEffect (w : World) : Effect → World
  | Effect.mkdirAll p => { w with dirs := p :: w.dirs }
  | Effect.rename src dst =>
    if src ∈ w.files then
      { w with files := dst :: w.files.filter (fun f => !(f == src) && !(f == dst)) }
    else w
  | Effect.println _ => w
  | Effect.removeAll p =>
    { files := w.files.filter (fun f => !listStartsWith p.toList f.toList)
      dirs := w.dirs.filter (fun d0 => !listStartsWith p.toList d0.toList)
      alive := w.alive }
  | Effect.signalKill q => { w with alive := w.alive.filter (fun x => !(x == q)) }

/-- Run a whole effect trace. -/
def applyTrace (w : World) (es : List Effect) : World :=
  es.foldl applyEffect w

/-- Modelled from the spec: the timestamp format the specification names,
`YYYY-MM-DD_HH-MM-SS` with zero-padded fields. -/
def specTimestampRender (d : GoDateTime) : String :=
  pad4 d.year ++ "-" ++ pad2 d.month ++ "-" ++ pad2 d.day ++ "_" ++
    pad2 d.hour ++ "-" ++ pad2 d.minute ++ "-" ++ pad2 d.second

/-- Modelled from the spec: the relocated log file name the specification
describes — the alias with every space replaced by an underscore, an
underscore, the **UTC** timestamp `YYYY-MM-DD_HH-MM-SS`, and `.log`. -/
def specLogFileNameUTC (aliasName : String) (nowUnix : Int) : String :=
  underscoreSpaces aliasName ++ "_" ++ specTimestampRender (goDateTimeOfUnix nowUnix) ++ ".log"


/-! ## Helper lemmas for the recovery protocol and validation -/

theorem strAppendAssoc (a b c : String) : a ++ b ++ c = a ++ (b ++ c) := by
  apply String.ext
  simp [String.data_append, List.append_assoc]

/-- Go's layout `"2006-01-02_15-04-05"` renders exactly the zero-padded
`YYYY-MM-DD_HH-MM-SS` format named by the specification. -/
theorem goTimeFormat_eq_spec (d : GoDateTime) : goTimeFormat d = specTimestampRender d := by
  show runLayout d "2006-01-02_15-04-05".toList = _
  simp [runLayout, specTimestampRender, strAppendAssoc,
    show String.singleton '-' = "-" from rfl, show String.singleton '_' = "_" from rfl]

theorem stringSliceContains_iff (l : List String) (x : String) :
    stringSliceContains l x = true ↔ x ∈ l := by
  simp only [stringSliceContains, List.any_eq_true, beq_iff_eq]
  constructor
  · rintro ⟨y, hy, rfl⟩
    exact hy
  · intro h
    exact ⟨x, h, rfl⟩

theorem applyEffect_alive (w : World) (e : Effect) (h : ∀ q, e ≠ Effect.signalKill q) :
    (applyEffect w e).alive = w.alive := by
  cases e with
  | mkdirAll p => rfl
  | rename src dst =>
    simp only [applyEffect]
    split <;> rfl
  | println m => rfl
  | removeAll p => rfl
  | signalKill q => exact absurd rfl (h q)

theorem applyTrace_alive (es : List Effect) : ∀ w : World,
    (∀ q, Effect.signalKill q ∉ es) → (applyTrace w es).alive = w.alive := by
  induction es with
  | nil => intro w _; rfl
  | cons e es ih =>
    intro w h
    have h1 : ∀ q, e ≠ Effect.signalKill q := by
      intro q he
      exact h q (he ▸ List.mem_cons_self e es)
    have h2 : ∀ q, Effect.signalKill q ∉ es := by
      intro q hm
      exact h q (List.mem_cons_of_mem _ hm)
    show (applyTrace (applyEffect w e) es).alive = w.alive
    rw [ih (applyEffect w e) h2, applyEffect_alive w e h1]

theorem applyEffect_dirs_mono (w : World) (e : Effect) (h : ∀ p, e ≠ Effect.removeAll p)
    (d0 : String) (hd : d0 ∈ w.dirs) : d0 ∈ (applyEffect w e).dirs := by
  cases e with
  | mkdirAll p => exact List.mem_cons_of_mem _ hd
  | rename src dst =>
    simp only [applyEffect]
    split <;> exact hd
  | println m => exact hd
  | removeAll p => exact absurd rfl (h p)
  | signalKill q => exact hd

theorem applyTrace_dirs_mono (es : List Effect) : ∀ w : World,
    (∀ p, Effect.removeAll p ∉ es) → ∀ d0 ∈ w.dirs, d0 ∈ (applyTrace w es).dirs := by
  induction es with
  | nil => intro w _ d0 hd; exact hd
  | cons e es ih =>
    intro w h d0 hd
    have h1 : ∀ p, e ≠ Effect.removeAll p := by
      intro p he
      exact h p (he ▸ List.mem_cons_self e es)
    have h2 : ∀ p, Effect.removeAll p ∉ es := by
      intro p hm
      exact h p (List.mem_cons_of_mem _ hm)
    show d0 ∈ (applyTrace (applyEffect w e) es).dirs
    exact ih (applyEffect w e) h2 d0 (applyEffect_dirs_mono w e h1 d0 hd)

/-- A concrete configuration with the shape `launchCloud` builds, for an alias
containing a space, under home directory `"/h"`. -/
def cfgSample : MachineConfig := {
  Alias := "vm 1"
  Image := "nocloud_alpine-alpine_3.20.3-aarch64-uefi-cloudinit-r0.qcow2"
  Arch := "aarch64"
  CPU := "2"
  Memory := "2048"
  Disk := "5G"
  Mount := ""
  MachineIP := "localhost"
  Port := ""
  SSHPort := "22"
  MACAddress := "52:54:00:a1:b2:c3"
  VMNet := false
  SSHUser := "alpine"
  SSHPassword := "raw::root"
  RootUsername := "alpine"
  RootPassword := "root"
  CloudInit := "cloud-init.yaml"
  Tags := []
  Location := joinPath (joinPath "/h" ".macpine") "vm 1" }


/-! ## Claim theorems -/

/-- C1: the claim says a launch whose user-supplied name equals an existing
alias fails with an identity-collision error. Evaluating the embedded
`launchCloud` at such an input shows the opposite: the collision check at
lines 145-152 reads the sibling variable `machineName` (empty here), so the
command generates an unused random alias, raises no error, and proceeds to
`host.Launch` with `Alias = "a"`, which is already in the instance list. -/
theorem launch_name_collision_not_detected :
    (launchCloudPrep { invDefault with machineNameCloud := "a" } sibDefault
        { henvDefault with vmList := ["a"] } 2).toOption.map
      (fun cfg => (cfg.Alias, stringSliceContains ["a"] cfg.Alias)) = some ("a", true) := rfl

/-- C2: the claim says a non-empty mount path must exist and be a directory.
Evaluating the embedded command at a launch whose `machineMountCloud` is a
path that does not exist in the modelled filesystem (`stat` returns `none`
everywhere) shows validation succeeding anyway: line 107 checks the sibling
variable `machineMount` (empty here), never the `launch-cloud` mount flag. -/
theorem launch_mount_not_validated :
    (launchCloudPrep { invDefault with machineMountCloud := "/does-not-exist" } sibDefault
        henvDefault 2).toOption.map
      (fun cfg => (cfg.Mount, henvDefault.stat cfg.Mount)) =
      some ("/does-not-exist", none) := rfl

/-- C3: the claim says an empty architecture argument yields a config whose
architecture is the host architecture (with uefi for aarch64). Evaluating the
embedded command on an arm64 host with `machineArchCloud = ""` shows the
built config carries `Arch = ""` and a bios image: lines 130-141 write the
default into the sibling variable `machineArch`, while lines 161-187 read
`machineArchCloud`, still empty. -/
theorem launch_arch_default_not_applied :
    ((launchCloudPrep { invDefault with machineNameCloud := "vm1" } sibDefault
          henvDefault 2).toOption.map (fun cfg => (cfg.Arch, cfg.Image)) =
        some ("", "nocloud_alpine-alpine_3.20.3--bios-cloudinit-r0.qcow2")) ∧
      machineTypeOf "" = "bios" ∧ henvDefault.goarch = "arm64" :=
  ⟨rfl, rfl, rfl⟩

/-- C4: disk-size validation classifies characters independently — digits (in
order) form the magnitude, uppercase letters the suffix, everything else is
dropped — and succeeds exactly when the magnitude string parses as an integer
≥ 0 and the suffix is one of "", K, M, G; `"5G"`, `"G5"` and `"05G"` validate
with magnitude 5 and suffix G, while `"5T"` and `"G"` fail. -/
theorem disk_size_classification :
    (∀ s : String, diskSizeCheck s = Except.ok () ↔
        ((∃ v : Int, goAtoi (List.asString (diskDigits s)) = some v ∧ 0 ≤ v) ∧
          List.asString (diskLetters s) ∈ ["", "K", "M", "G"])) ∧
    diskSizeCheck "5G" = Except.ok () ∧
    diskSizeCheck "G5" = Except.ok () ∧
    diskSizeCheck "05G" = Except.ok () ∧
    goAtoi (List.asString (diskDigits "5G")) = some 5 ∧
    goAtoi (List.asString (diskDigits "G5")) = some 5 ∧
    goAtoi (List.asString (diskDigits "05G")) = some 5 ∧
    List.asString (diskLetters "5G") = "G" ∧
    List.asString (diskLetters "G5") = "G" ∧
    List.asString (diskLetters "05G") = "G" ∧
    diskSizeCheck "5T" = Except.error "disk size suffix must be K, M, or G" ∧
    diskSizeCheck "G" =
      Except.error "disk size (-d) must be a positive integer optionally followed by K, M, or G" := by
  refine ⟨?_, rfl, rfl, rfl, rfl, rfl, rfl, rfl, rfl, rfl, rfl, rfl⟩
  intro s
  simp only [diskSizeCheck]
  cases hp : goAtoi (List.asString (diskDigits s)) with
  | none => simp [hp]
  | some v =>
    by_cases hv : v < 0
    · simp only [hp, if_pos hv]
      constructor
      · intro h
        exact Except.noConfusion h
      · rintro ⟨⟨v2, hv2, hge⟩, -⟩
        rw [Option.some_inj] at hv2
        omega
    · by_cases hsuf : stringSliceContains ["", "K", "M", "G"] (List.asString (diskLetters s))
      · simp only [hp, if_neg hv, if_pos hsuf]
        rw [stringSliceContains_iff] at hsuf
        constructor
        · intro _
          exact ⟨⟨v, rfl, by omega⟩, hsuf⟩
        · intro _
          trivial
      · simp only [hp, if_neg hv, if_neg hsuf]
        constructor
        · intro h
          exact Except.noConfusion h
        · rintro ⟨-, hm⟩
          rw [← stringSliceContains_iff] at hm
          exact absurd hm hsuf

/-- C5: starting from the empty tag sequence, any finite sequence of add
operations yields a strictly ascending, duplicate-free sequence, and adding a
label already present is a no-op. -/
theorem tag_add_sorted_nodup_idempotent :
    (∀ requested : List String,
        List.Sorted (· < ·) (macpineTagLoop false [] requested) ∧
        (macpineTagLoop false [] requested).Nodup) ∧
    (∀ requested : List String, ∀ t ∈ macpineTagLoop false [] requested,
        tagStep false (macpineTagLoop false [] requested) t =
          macpineTagLoop false [] requested) := by
  have hsorted : ∀ requested : List String,
      List.Sorted (· < ·) (macpineTagLoop false [] requested) :=
    fun requested => sorted_macpineTagLoop [] requested List.sorted_nil
  refine ⟨fun requested => ⟨hsorted requested, (hsorted requested).nodup⟩, ?_⟩
  intro requested t ht
  rw [tagStep_false_eq_insert]
  exact insertIfAbsent_of_mem t _ (hsorted requested) ht

theorem tag_add_witness :
    "a" ∈ macpineTagLoop false [] ["b", "a"] ∧
    tagStep false (macpineTagLoop false [] ["b", "a"]) "a" =
      macpineTagLoop false [] ["b", "a"] :=
  ⟨by decide, tag_add_sorted_nodup_idempotent.2 ["b", "a"] "a" (by decide)⟩

/-- C6: on a strictly sorted (hence duplicate-free) tag sequence, removing an
absent label is a no-op; removing a present label shortens the sequence by
exactly one, keeps it sorted, and produces the original with that one element
deleted. -/
theorem tag_remove_props (s : List String) (t : String) (hs : List.Sorted (· < ·) s) :
    (t ∉ s → tagStep true s t = s) ∧
    (t ∈ s → (tagStep true s t).length + 1 = s.length ∧
      List.Sorted (· < ·) (tagStep true s t) ∧ tagStep true s t = s.erase t) := by
  have he := tagStep_true_eq_erase s t hs
  constructor
  · intro hnm
    rw [he, List.erase_of_not_mem hnm]
  · intro hm
    refine ⟨?_, ?_, he⟩
    · rw [he, List.length_erase_of_mem hm]
      have hpos : 1 ≤ s.length := List.length_pos.mpr (List.ne_nil_of_mem hm)
      omega
    · rw [he]
      exact List.Pairwise.sublist (List.erase_sublist t s) hs

theorem tag_remove_witness :
    tagStep true ["a", "b"] "c" = ["a", "b"] ∧
    (tagStep true ["a", "b"] "b").length + 1 = 2 ∧
    tagStep true ["a", "b"] "b" = (["a", "b"] : List String).erase "b" :=
  have hs : List.Sorted (· < ·) (["a", "b"] : List String) := by
    simp [List.sorted_cons]
    decide
  ⟨(tag_remove_props ["a", "b"] "c" hs).1 (by decide),
   ((tag_remove_props ["a", "b"] "b" hs).2 (by decide)).1,
   ((tag_remove_props ["a", "b"] "b" hs).2 (by decide)).2.2⟩

/-- C7: on a sorted sequence, `find` returns the least index whose element is
lexicographically ≥ the target (the length if none), and a flag that is true
exactly when that index holds an element equal to the target. -/
theorem find_locates (s : List String) (t : String) (hs : List.Sorted (· ≤ ·) s) :
    (find s t).1 ≤ s.length ∧
    (∀ j, j < (find s t).1 → s.getD j "" < t) ∧
    ((find s t).1 < s.length → t ≤ s.getD (find s t).1 "") ∧
    ((find s t).2 = true ↔ ((find s t).1 < s.length ∧ s.getD (find s t).1 "" = t)) :=
  ⟨find_fst_le s t, find_getD_lt s t, find_le_getD s t, find_snd_iff s t⟩

theorem find_locates_witness :
    (find ["a", "c"] "b").1 ≤ 2 ∧
    (["a", "c"] : List String).getD 0 "" < "b" ∧
    ("b" : String) ≤ (["a", "c"] : List String).getD (find ["a", "c"] "b").1 "" :=
  have hs : List.Sorted (· ≤ ·) (["a", "c"] : List String) := by
    simp [List.sorted_cons]
    decide
  ⟨(find_locates ["a", "c"] "b" hs).1,
   (find_locates ["a", "c"] "b" hs).2.1 0 (by decide),
   (find_locates ["a", "c"] "b" hs).2.2.1 (by decide)⟩

/-- C10: for every sequence, sorted or not, `find` returns an index within
[0, length], the exact-match flag implies the index is in range, and the two
splices of `tagStep` built from the result are length-correct (hence never
out of bounds): insertion grows the sequence by one, deletion on an exact
match shrinks it by one. (`find` is structurally recursive, so termination
holds by construction.) -/
theorem find_splice_safe (s : List String) (t : String) :
    (find s t).1 ≤ s.length ∧
    ((find s t).2 = true → (find s t).1 < s.length) ∧
    ((find s t).2 = false → (tagStep false s t).length = s.length + 1) ∧
    ((find s t).2 = true → (tagStep true s t).length + 1 = s.length) := by
  refine ⟨find_fst_le s t, ?_, ?_, ?_⟩
  · intro hb
    exact ((find_snd_iff s t).mp hb).1
  · intro hb
    have hle := find_fst_le s t
    simp [tagStep, hb, List.length_append, List.length_take, List.length_drop]
    omega
  · intro hb
    have hlt := ((find_snd_iff s t).mp hb).1
    simp [tagStep, hb, List.length_append, List.length_take, List.length_drop]
    omega

theorem find_splice_safe_witness :
    (find ["b"] "a").1 ≤ 1 ∧
    (tagStep false ["b"] "a").length = 2 ∧
    (find ["a"] "a").1 < 1 ∧
    (tagStep true ["a"] "a").length + 1 = 1 :=
  ⟨(find_splice_safe ["b"] "a").1,
   (find_splice_safe ["b"] "a").2.2.1 (by decide),
   (find_splice_safe ["a"] "a").2.1 (by decide),
   (find_splice_safe ["a"] "a").2.2.2 (by decide)⟩

/-- C8 (amended): on every launch failure the recovery trace creates the
error-log directory under the host's cache directory and renames the
instance's log file into it, to the alias with every space replaced by an
underscore, an underscore, the host's **local-time** timestamp
`YYYY-MM-DD_HH-MM-SS` (Go's `time.Now()` renders the local zone, not UTC),
and `.log`; and the command terminates with the original failure cause. -/
theorem recovery_log_rename_local (cfg : MachineConfig) (home : String)
    (nowUnix tz : Int) (pid : Int) (err : String) :
    Effect.mkdirAll (errorLogsDir home) ∈ (recoveryRun cfg home nowUnix tz pid err).1 ∧
    Effect.rename (joinPath cfg.Location "alpine.log")
        (joinPath (errorLogsDir home)
          (underscoreSpaces cfg.Alias ++ "_" ++
            specTimestampRender (goDateTimeOfUnix (nowUnix + tz)) ++ ".log")) ∈
      (recoveryRun cfg home nowUnix tz pid err).1 ∧
    (recoveryRun cfg home nowUnix tz pid err).2 = err := by
  refine ⟨?_, ?_, rfl⟩
  · simp [recoveryRun]
  · rw [← goTimeFormat_eq_spec]
    simp [recoveryRun]

/-- C8 (counterexample to the claim as stated): on a host whose zone is
UTC+1, at Unix time 0, the recovery trace renames the log to the local-time
name `vm_1_1970-01-01_01-00-00.log` and not to the UTC name
`vm_1_1970-01-01_00-00-00.log` required by the claim. -/
theorem recovery_log_name_not_utc :
    specLogFileNameUTC cfgSample.Alias 0 = "vm_1_1970-01-01_00-00-00.log" ∧
    Effect.rename (joinPath cfgSample.Location "alpine.log")
        (joinPath (errorLogsDir "/h") (specLogFileNameUTC cfgSample.Alias 0)) ∉
      (recoveryRun cfgSample "/h" 0 3600 7 "boom").1 ∧
    Effect.rename (joinPath cfgSample.Location "alpine.log")
        (joinPath (errorLogsDir "/h") "vm_1_1970-01-01_01-00-00.log") ∈
      (recoveryRun cfgSample "/h" 0 3600 7 "boom").1 := by
  refine ⟨rfl, ?_, ?_⟩ <;> decide

/-- C9: the recovery trace contains no `removeAll` and no `signalKill`
effect; running it leaves the live process set unchanged and removes no
directory (in particular the instance's storage directory survives), and the
command terminates reporting the original failure cause. -/
theorem recovery_frame (cfg : MachineConfig) (home : String) (nowUnix tz : Int)
    (pid : Int) (err : String) (w : World) :
    (∀ p, Effect.removeAll p ∉ (recoveryRun cfg home nowUnix tz pid err).1) ∧
    (∀ q, Effect.signalKill q ∉ (recoveryRun cfg home nowUnix tz pid err).1) ∧
    (applyTrace w (recoveryRun cfg home nowUnix tz pid err).1).alive = w.alive ∧
    (∀ d0 ∈ w.dirs, d0 ∈ (applyTrace w (recoveryRun cfg home nowUnix tz pid err).1).dirs) ∧
    (recoveryRun cfg home nowUnix tz pid err).2 = err := by
  have hrm : ∀ p, Effect.removeAll p ∉ (recoveryRun cfg home nowUnix tz pid err).1 := by
    intro p hm
    simp [recoveryRun] at hm
  have hsk : ∀ q, Effect.signalKill q ∉ (recoveryRun cfg home nowUnix tz pid err).1 := by
    intro q hm
    simp [recoveryRun] at hm
  exact ⟨hrm, hsk, applyTrace_alive _ w hsk, applyTrace_dirs_mono _ w hrm, rfl⟩

theorem recovery_frame_witness :
    (applyTrace ⟨[joinPath cfgSample.Location "alpine.log"], [cfgSample.Location], [7]⟩
        (recoveryRun cfgSample "/h" 0 3600 7 "boom").1).alive = [7] ∧
    cfgSample.Location ∈
      (applyTrace ⟨[joinPath cfgSample.Location "alpine.log"], [cfgSample.Location], [7]⟩
        (recoveryRun cfgSample "/h" 0 3600 7 "boom").1).dirs :=
  ⟨(recovery_frame cfgSample "/h" 0 3600 7 "boom" _).2.2.1,
   (recovery_frame cfgSample "/h" 0 3600 7 "boom" _).2.2.2.1 cfgSample.Location (by decide)⟩


end Macpine
